import Mathlib

/-! AVRCP audio track: PCM transcoding and streaming (`btif_avrcp_audio_track.cc`).

A shallow embedding of `system/btif/src/btif_avrcp_audio_track.cc`.

Conventions of the embedding.

* `int` is a 32-bit two's-complement integer and `size_t` is an unsigned 64-bit integer (the LP64
  Android ABI).  Values are carried as `Int` / `Nat`; every conversion and every unsigned operation
  of the source is written with an explicit reduction (`toSizeT`, `toInt32`, `% SIZE_MODULUS`).
* `float` is IEEE-754 binary32 with round-to-nearest-even, modelled bit-exactly by `F32`
  (sign, biased exponent, fraction); arithmetic works on integer significands, so it is executable.
* Memory is a total function from addresses to contents: the raw input is `Mem` (bytes addressed
  relative to `audioBuffer`), the float array is `Nat → F32` (floats addressed relative to
  `trackHolder->buffer`).  A store outside the allocated array would therefore be visible.
* The platform stream (`AAudioStream_write`) is an external collaborator; each call is recorded in
  a trace together with its arguments, and its return value (only logged by the source) is unused.
* The `do … while` loop of `BtifAvrcpAudioTrackWriteData` is run with a fuel bound on the number of
  iterations; running out of fuel is the outcome `WriteFault.fuelExhausted`.
-/

namespace AvrcpAudioTrack

/-! ## Machine integers -/

/-- Number of values of `size_t` (64-bit). -/
def SIZE_MODULUS : Nat := 18446744073709551616

/-- Conversion of a signed integer to `size_t` (value modulo `2^64`). -/
def toSizeT (x : Int) : Nat := (x % 18446744073709551616).toNat

/-- Conversion to a 32-bit signed `int` (two's-complement wrap). -/
def toInt32 (x : Int) : Int := (x + 2147483648) % 4294967296 - 2147483648

/-! ## IEEE-754 binary32 -/

/-- A binary32 value given by its three bit fields: sign, biased exponent, fraction. -/
structure F32 where
  sign : Bool
  exp : Fin 256
  man : Fin 8388608
deriving DecidableEq

namespace F32

/-- Not-a-number: all exponent bits set, fraction non-zero. -/
def isNaN (x : F32) : Bool := x.exp.val == 255 && x.man.val != 0

/-- Infinity: all exponent bits set, fraction zero. -/
def isInf (x : F32) : Bool := x.exp.val == 255 && x.man.val == 0

/-- Integer significand: the fraction, with the hidden bit for normal numbers. -/
def significand (x : F32) : Nat := if x.exp.val = 0 then x.man.val else 8388608 + x.man.val

/-- Exponent of the last place: the value of a finite `x` is `± significand * 2 ^ exponent`. -/
def exponent (x : F32) : Int := (if x.exp.val = 0 then 1 else (x.exp.val : Int)) - 150

/-- Rational value of a finite binary32 (meaningless on NaN and infinities). -/
def toRat (x : F32) : ℚ :=
  (if x.sign then -1 else 1) * (x.significand : ℚ) * (2 : ℚ) ^ x.exponent

/-- The canonical quiet NaN. -/
def nan : F32 := ⟨false, 255, 4194304⟩

/-- Signed infinity. -/
def inf (sign : Bool) : F32 := ⟨sign, 255, 0⟩

/-- Signed zero. -/
def zero (sign : Bool) : F32 := ⟨sign, 0, 0⟩

/-- Fuelled helper of `ilog2`. -/
def ilog2Aux : Nat → Nat → Nat
  | 0, _ => 0
  | fuel + 1, n => if n < 2 then 0 else ilog2Aux fuel (n / 2) + 1

/-- Position of the highest set bit: `floor (log2 n)` for `n > 0`. -/
def ilog2 (n : Nat) : Nat := ilog2Aux n n

/-- Shift `m` right by `s` bits, rounding to nearest, ties to even. -/
def roundShift (m s : Nat) : Nat :=
  let q := m / 2 ^ s
  let r := m % 2 ^ s
  let h := 2 ^ (s - 1)
  if h < r ∨ (r = h ∧ q % 2 = 1) then q + 1 else q

/-- Assemble `n * 2 ^ qe` (with `n ≤ 2^24`, and `qe = -149` when `n < 2^23`) into bit fields.
Adding `n` to the exponent field placed one below lets a carry out of the fraction propagate into
the exponent; an exponent field of 255 or more is an overflow to infinity. -/
def pack (sign : Bool) (qe : Int) (n : Nat) : F32 :=
  let packed : Nat := ((qe + 149) * 8388608 + (n : Int)).toNat
  if 255 * 8388608 ≤ packed then inf sign
  else ⟨sign, Fin.ofNat (packed / 8388608), Fin.ofNat (packed % 8388608)⟩

/-- Round the exact value `± m * 2 ^ e` to the nearest binary32, ties to even. -/
def roundPack (sign : Bool) (m : Nat) (e : Int) : F32 :=
  if m = 0 then zero sign
  else
    let top : Int := (ilog2 m : Int) + e
    let qe : Int := max (top - 23) (-149)
    let n : Nat := if qe ≤ e then m * 2 ^ (e - qe).toNat else roundShift m (qe - e).toNat
    pack sign qe n

/-- Binary32 multiplication (`operator*` on `float`). -/
def mul (a b : F32) : F32 :=
  if a.isNaN || b.isNaN then nan
  else if a.isInf || b.isInf then
    (if (a.significand = 0 ∧ a.isInf = false) ∨ (b.significand = 0 ∧ b.isInf = false) then nan
     else inf (xor a.sign b.sign))
  else roundPack (xor a.sign b.sign) (a.significand * b.significand) (a.exponent + b.exponent)

/-- Conversion of an integer to `float`. -/
def ofInt (v : Int) : F32 := roundPack (decide (v < 0)) v.natAbs 0

/-- Sign-magnitude key: on non-NaN values the IEEE order is the order of the keys
(`-0.0` and `+0.0` share the key 0). -/
def key (x : F32) : Int :=
  let mag : Int := (x.exp.val : Int) * 8388608 + (x.man.val : Int)
  if x.sign then -mag else mag

/-- IEEE `<` (`operator<` on `float`): false as soon as an operand is NaN. -/
def lt (a b : F32) : Bool := !a.isNaN && !b.isNaN && decide (a.key < b.key)

/-- IEEE `<=`: false as soon as an operand is NaN. -/
def le (a b : F32) : Bool := !a.isNaN && !b.isNaN && decide (a.key ≤ b.key)

/-- The literal `1.0f`. -/
def one : F32 := ⟨false, 127, 0⟩

end F32

/-- Function `std::clamp(v, lo, hi)` as libc++ defines it:
`comp(v, lo) ? lo : comp(hi, v) ? hi : v` with `comp` being `<`. -/
def stdClamp (v lo hi : F32) : F32 :=
  if F32.lt v lo then lo else if F32.lt hi v then hi else v

/-! ## The track -/

/-- Constant `AAUDIO_FORMAT_PCM_FLOAT` of the platform header `aaudio/AAudio.h`. -/
def AAUDIO_FORMAT_PCM_FLOAT : Int := 2

/-- Constant `AAUDIO_OK` of the platform header `aaudio/AAudio.h`. -/
def AAUDIO_OK : Int := 0

/-- The struct `BtifAvrcpAudioTrack`.  `stream` is the pointer value (0 is `NULL`); `buffer` is the
memory reached through the `float*`, indexed in floats, of which the first `bufferLength` entries
are the allocated array. -/
structure BtifAvrcpAudioTrack where
  stream : Nat
  bitsPerSample : Int
  channelCount : Int
  format : Int
  buffer : Nat → F32
  bufferLength : Nat
  gain : F32

/-- Maximum track gain that can be set: `1.0f`. -/
def kMaxTrackGain : F32 := F32.one

/-- Minimum track gain that can be set: `0.0f`. -/
def kMinTrackGain : F32 := F32.zero false

/-- Function `BtifAvrcpAudioTrackCreate`.  The stream builder is external: `openResult` is what
`AAudioStreamBuilder_openStream` returned, `stream` the stream it produced and
`bufferSizeInFrames` the answer of `AAudioStream_getBufferSizeInFrames`.  `CHECK(result ==
AAUDIO_OK)` aborts (`none`).  The length is an `int` product (wrapping in the model) converted to
`size_t`.  The array is value-initialised (`new float[n]()`), so it is all `+0.0`; the
new-expression fails, and the process ends (`none`), when `n * sizeof(float)` is not representable
in `size_t`. -/
def BtifAvrcpAudioTrackCreate (openResult : Int) (stream : Nat) (bufferSizeInFrames : Int)
    (_trackFreq bitsPerSample channelCount : Int) : Option BtifAvrcpAudioTrack :=
  if openResult ≠ AAUDIO_OK then none
  else
    let bufferLength := toSizeT (toInt32 (channelCount * bufferSizeInFrames))
    if SIZE_MODULUS ≤ bufferLength * 4 then none
    else some
      { stream := stream
        bitsPerSample := bitsPerSample
        channelCount := channelCount
        format := AAUDIO_FORMAT_PCM_FLOAT
        buffer := fun _ => F32.zero false
        bufferLength := bufferLength
        gain := kMaxTrackGain }

/-- Function `BtifAvrcpSetAudioTrackGain`: a `NULL` handle (`none`) is left alone; otherwise the clamped
gain is stored.  The two log statements have no effect on the track. -/
def BtifAvrcpSetAudioTrackGain (handle : Option BtifAvrcpAudioTrack) (gain : F32) :
    Option BtifAvrcpAudioTrack :=
  match handle with
  | none => none
  | some trackHolder =>
    let clampedGain := stdClamp gain kMinTrackGain kMaxTrackGain
    some { trackHolder with gain := clampedGain }

/-- A run of `BtifAvrcpSetAudioTrackGain` calls on one handle, in list order. -/
def setGains (handle : Option BtifAvrcpAudioTrack) (gains : List F32) :
    Option BtifAvrcpAudioTrack :=
  gains.foldl BtifAvrcpSetAudioTrackGain handle

/-- The stored gain lies in `[kMinTrackGain, kMaxTrackGain]` (IEEE comparisons). -/
def gainInRange (trackHolder : BtifAvrcpAudioTrack) : Bool :=
  F32.le kMinTrackGain trackHolder.gain && F32.le trackHolder.gain kMaxTrackGain

/-! ## Transcoding -/

/-- Constant `1.0f / 32768.0f`: the quotient `2^-15` correctly rounded. -/
def kScaleQ15ToFloat : F32 := F32.roundPack false 1 (-15)

/-- Constant `1.0f / 8388608.0f`: the quotient `2^-23` correctly rounded. -/
def kScaleQ23ToFloat : F32 := F32.roundPack false 1 (-23)

/-- Constant `1.0f / 2147483648.0f`: the quotient `2^-31` correctly rounded. -/
def kScaleQ31ToFloat : F32 := F32.roundPack false 1 (-31)

/-- Raw input memory: the byte at each address, addresses relative to `audioBuffer`. -/
abbrev Mem := Int → Nat

/-- The byte at address `a`. -/
def loadByte (m : Mem) (a : Int) : Nat := m a % 256

/-- Load `*(int16_t*)a` on a little-endian target. -/
def loadInt16 (m : Mem) (a : Int) : Int :=
  let u : Nat := loadByte m a + 256 * loadByte m (a + 1)
  if u < 32768 then (u : Int) else (u : Int) - 65536

/-- Load `*(int32_t*)a` on a little-endian target. -/
def loadInt32 (m : Mem) (a : Int) : Int :=
  let u : Nat := loadByte m a + 256 * loadByte m (a + 1) + 65536 * loadByte m (a + 2)
    + 16777216 * loadByte m (a + 3)
  if u < 2147483648 then (u : Int) else (u : Int) - 4294967296

/-- Function `sampleSizeFor`: `bitsPerSample / 8` in `int` (truncating), converted to `size_t`. -/
def sampleSizeFor (trackHolder : BtifAvrcpAudioTrack) : Nat :=
  toSizeT (Int.tdiv trackHolder.bitsPerSample 8)

/-- The loop `for (i = 0; i < n; i++) buffer[i] = sample i`: stores at indices `0 … n-1`, in
increasing order. -/
def storeSamples (sample : Nat → F32) : Nat → (Nat → F32) → (Nat → F32)
  | 0, buffer => buffer
  | n + 1, buffer => Function.update (storeSamples sample n buffer) n (sample n)

/-- Body of the loop of `transcodeQ15ToFloat`: the value stored at index `i`,
`((int16_t*)buffer)[i] * scaledGain`. -/
def q15Sample (mem : Mem) (p : Int) (scaledGain : F32) (i : Nat) : F32 :=
  F32.mul (F32.ofInt (loadInt16 mem (p + 2 * (i : Int)))) scaledGain

/-- Body of the loop of `transcodeQ23ToFloat`: the value stored at index `i`.  The statement that
declares and loads `sample` is not part of the source file at hand, so the loaded `int32_t` is the
parameter `loadSample mem p offset`; the visible steps are `offset = i * sampleSize`,
`sample = sample >> 8` (arithmetic shift) and `sample * scaledGain`. -/
def q23Sample (loadSample : Mem → Int → Nat → Int) (mem : Mem) (p : Int) (sampleSize : Nat)
    (scaledGain : F32) (i : Nat) : F32 :=
  let offset := i * sampleSize % SIZE_MODULUS
  let sample := toInt32 (loadSample mem p offset)
  let sample := sample / 256
  F32.mul (F32.ofInt sample) scaledGain

/-- Body of the loop of `transcodeQ31ToFloat`: the value stored at index `i`,
`((int32_t*)buffer)[i] * scaledGain`. -/
def q31Sample (mem : Mem) (p : Int) (scaledGain : F32) (i : Nat) : F32 :=
  F32.mul (F32.ofInt (loadInt32 mem (p + 4 * (i : Int)))) scaledGain

/-- Function `transcodeQ15ToFloat(buffer, length, trackHolder)`; `buffer` is the address `p` in `mem`.
Returns the `size_t` result `i * sampleSize` and the track with its float memory updated.
(Only called with `bitsPerSample == 16`, so `sampleSize` is not 0.) -/
def transcodeQ15ToFloat (mem : Mem) (p : Int) (length : Nat) (trackHolder : BtifAvrcpAudioTrack) :
    Nat × BtifAvrcpAudioTrack :=
  let sampleSize := sampleSizeFor trackHolder
  let scaledGain := F32.mul trackHolder.gain kScaleQ15ToFloat
  let i := min trackHolder.bufferLength (length / sampleSize)
  (i * sampleSize % SIZE_MODULUS,
   { trackHolder with
     buffer := storeSamples (q15Sample mem p scaledGain) i trackHolder.buffer })

/-- Function `transcodeQ23ToFloat`; the load of `sample` is the parameter `loadSample`
(see `q23Sample`). -/
def transcodeQ23ToFloat (loadSample : Mem → Int → Nat → Int) (mem : Mem) (p : Int) (length : Nat)
    (trackHolder : BtifAvrcpAudioTrack) : Nat × BtifAvrcpAudioTrack :=
  let sampleSize := sampleSizeFor trackHolder
  let scaledGain := F32.mul trackHolder.gain kScaleQ23ToFloat
  let i := min trackHolder.bufferLength (length / sampleSize)
  (i * sampleSize % SIZE_MODULUS,
   { trackHolder with
     buffer := storeSamples (q23Sample loadSample mem p sampleSize scaledGain) i
       trackHolder.buffer })

/-- Function `transcodeQ31ToFloat`. -/
def transcodeQ31ToFloat (mem : Mem) (p : Int) (length : Nat) (trackHolder : BtifAvrcpAudioTrack) :
    Nat × BtifAvrcpAudioTrack :=
  let sampleSize := sampleSizeFor trackHolder
  let scaledGain := F32.mul trackHolder.gain kScaleQ31ToFloat
  let i := min trackHolder.bufferLength (length / sampleSize)
  (i * sampleSize % SIZE_MODULUS,
   { trackHolder with
     buffer := storeSamples (q31Sample mem p scaledGain) i trackHolder.buffer })

/-- Function `transcodeToPcmFloat`: the `switch` on `bitsPerSample`; the fall-through `return -1` is
`(size_t)-1`. -/
def transcodeToPcmFloat (loadSample : Mem → Int → Nat → Int) (mem : Mem) (p : Int) (length : Nat)
    (trackHolder : BtifAvrcpAudioTrack) : Nat × BtifAvrcpAudioTrack :=
  if trackHolder.bitsPerSample = 16 then transcodeQ15ToFloat mem p length trackHolder
  else if trackHolder.bitsPerSample = 24 then
    transcodeQ23ToFloat loadSample mem p length trackHolder
  else if trackHolder.bitsPerSample = 32 then transcodeQ31ToFloat mem p length trackHolder
  else (toSizeT (-1), trackHolder)

/-- The float that sample `i` of the input at address `p` converts to on track `trackHolder`:
the loop body of the transcoder selected by the bit depth. -/
def transcodedSample (loadSample : Mem → Int → Nat → Int) (mem : Mem) (p : Int)
    (trackHolder : BtifAvrcpAudioTrack) (i : Nat) : F32 :=
  if trackHolder.bitsPerSample = 16 then
    q15Sample mem p (F32.mul trackHolder.gain kScaleQ15ToFloat) i
  else if trackHolder.bitsPerSample = 24 then
    q23Sample loadSample mem p (sampleSizeFor trackHolder)
      (F32.mul trackHolder.gain kScaleQ23ToFloat) i
  else q31Sample mem p (F32.mul trackHolder.gain kScaleQ31ToFloat) i

/-! ## Writing -/

/-- Ceiling of `a / b` on naturals. -/
def ceilDiv (a b : Nat) : Nat := (a + b - 1) / b


/-- Constant `kTimeoutNanos`: 100 ms. -/
def kTimeoutNanos : Int := 100 * 1000 * 1000

/-- One call `AAudioStream_write(stream, buffer, numFrames, timeoutNanoseconds)`. -/
structure StreamWrite where
  stream : Nat
  numFrames : Int
  timeoutNanoseconds : Int
deriving DecidableEq

/-- State of `BtifAvrcpAudioTrackWriteData` between loop iterations. -/
structure WriteState where
  track : BtifAvrcpAudioTrack
  transcodedCount : Int
  writes : List StreamWrite

/-- Ways in which a run does not reach `return transcodedCount`. -/
inductive WriteFault where
  | checkFailed
  | divisionByZero
  | fuelExhausted
deriving DecidableEq

/-- One iteration of the `do … while` body.  `transcodedCount += r` is computed in `size_t` and
converted back to `int`; `bufferLength - transcodedCount` is an `int` subtraction (wrapping in the
model) converted to `size_t`; the source pointer `audioBuffer + transcodedCount` is the address
`transcodedCount`; the frame count is a `size_t` division converted to the `int32_t` parameter. -/
def writeStep (loadSample : Mem → Int → Nat → Int) (audioBuffer : Mem) (bufferLength : Int)
    (sampleSize : Nat) (s : WriteState) : Except WriteFault WriteState :=
  if s.track.format ≠ AAUDIO_FORMAT_PCM_FLOAT then Except.error WriteFault.checkFailed
  else
    let r := transcodeToPcmFloat loadSample audioBuffer s.transcodedCount
      (toSizeT (toInt32 (bufferLength - s.transcodedCount))) s.track
    let transcodedCount := toInt32 (((toSizeT s.transcodedCount + r.1) % SIZE_MODULUS : Nat) : Int)
    let divisor := sampleSize * toSizeT r.2.channelCount % SIZE_MODULUS
    if divisor = 0 then Except.error WriteFault.divisionByZero
    else
      Except.ok
        { track := r.2
          transcodedCount := transcodedCount
          writes := s.writes ++
            [{ stream := r.2.stream
               numFrames := toInt32 ((toSizeT transcodedCount / divisor : Nat) : Int)
               timeoutNanoseconds := kTimeoutNanos }] }

/-- The `do { … } while (transcodedCount < bufferLength)` loop, at most `fuel` iterations. -/
def writeLoop (loadSample : Mem → Int → Nat → Int) (audioBuffer : Mem) (bufferLength : Int)
    (sampleSize : Nat) : Nat → WriteState → Except WriteFault WriteState
  | 0, _ => Except.error WriteFault.fuelExhausted
  | fuel + 1, s =>
    match writeStep loadSample audioBuffer bufferLength sampleSize s with
    | Except.error e => Except.error e
    | Except.ok s1 =>
      if s1.transcodedCount < bufferLength then
        writeLoop loadSample audioBuffer bufferLength sampleSize fuel s1
      else Except.ok s1

/-- Function `BtifAvrcpAudioTrackWriteData(handle, audioBuffer, bufferLength)`.  The two `CHECK`s
on the handle and on its stream abort the call.  The returned `int` is the field
`transcodedCount` of the final state, which also carries the track and the trace of stream
writes.  The optional PCM dump (`DUMP_PCM_DATA`) and the log statements do not touch the track and
are left out. -/
def BtifAvrcpAudioTrackWriteData (loadSample : Mem → Int → Nat → Int) (fuel : Nat)
    (handle : Option BtifAvrcpAudioTrack) (audioBuffer : Mem) (bufferLength : Int) :
    Except WriteFault WriteState :=
  match handle with
  | none => Except.error WriteFault.checkFailed
  | some trackHolder =>
    if trackHolder.stream = 0 then Except.error WriteFault.checkFailed
    else
      writeLoop loadSample audioBuffer bufferLength (sampleSizeFor trackHolder) fuel
        { track := trackHolder, transcodedCount := 0, writes := [] }

/-- The floats a stream write of `numFrames` frames reads, `numFrames * channelCount`, all lie
inside the float array of the track. -/
def writeWithinArray (trackHolder : BtifAvrcpAudioTrack) (w : StreamWrite) : Bool :=
  decide (w.numFrames * trackHolder.channelCount ≤ (trackHolder.bufferLength : Int))

/-- What a caller can observe of a run: the returned `int` and the frame counts of the stream
writes in call order; `none` when the run does not return. -/
def observe (r : Except WriteFault WriteState) : Option (Int × List Int) :=
  match r with
  | Except.ok s => some (s.transcodedCount, s.writes.map (fun w => w.numFrames))
  | Except.error _ => none

/-- The stream writes of a run in call order, each with its frame count and whether it stays
inside the float array; `none` when the run does not return. -/
def observeWrites (r : Except WriteFault WriteState) : Option (List (Int × Bool)) :=
  match r with
  | Except.ok s => some (s.writes.map (fun w => (w.numFrames, writeWithinArray s.track w)))
  | Except.error _ => none

/-! ## Machine-integer lemmas -/

theorem toInt32_of_range (x : Int) (h0 : -2147483648 ≤ x) (h1 : x < 2147483648) :
    toInt32 x = x := by
  unfold toInt32; omega

theorem toSizeT_of_nonneg (x : Int) (h0 : 0 ≤ x) (h1 : x < 18446744073709551616) :
    toSizeT x = x.toNat := by
  unfold toSizeT; omega

theorem toSizeT_natCast (n : Nat) (h : n < 18446744073709551616) : toSizeT (n : Int) = n := by
  unfold toSizeT; omega

theorem toSizeT_neg_one : toSizeT (-1) = 18446744073709551615 := by decide

theorem sampleSizeFor_16 (t : BtifAvrcpAudioTrack) (h : t.bitsPerSample = 16) :
    sampleSizeFor t = 2 := by
  simp [sampleSizeFor, h]; decide

theorem sampleSizeFor_24 (t : BtifAvrcpAudioTrack) (h : t.bitsPerSample = 24) :
    sampleSizeFor t = 3 := by
  simp [sampleSizeFor, h]; decide

theorem sampleSizeFor_32 (t : BtifAvrcpAudioTrack) (h : t.bitsPerSample = 32) :
    sampleSizeFor t = 4 := by
  simp [sampleSizeFor, h]; decide

/-! ## The store loop -/

theorem storeSamples_lt (f : Nat → F32) (n : Nat) (b : Nat → F32) (j : Nat) (h : j < n) :
    storeSamples f n b j = f j := by
  induction n with
  | zero => omega
  | succ k ih =>
    unfold storeSamples
    by_cases hj : j = k
    · subst hj; simp
    · rw [Function.update_noteq hj]; exact ih (by omega)

theorem storeSamples_ge (f : Nat → F32) (n : Nat) (b : Nat → F32) (j : Nat) (h : n ≤ j) :
    storeSamples f n b j = b j := by
  induction n with
  | zero => rfl
  | succ k ih =>
    unfold storeSamples
    rw [Function.update_noteq (by omega)]; exact ih (by omega)

/-! ## The transcoders -/

theorem transcodedSample_eq_16 (ld : Mem → Int → Nat → Int) (mem : Mem) (p : Int)
    (t : BtifAvrcpAudioTrack) (h : t.bitsPerSample = 16) :
    transcodedSample ld mem p t = q15Sample mem p (F32.mul t.gain kScaleQ15ToFloat) := by
  funext i; simp [transcodedSample, h]

theorem transcodedSample_eq_24 (ld : Mem → Int → Nat → Int) (mem : Mem) (p : Int)
    (t : BtifAvrcpAudioTrack) (h : t.bitsPerSample = 24) :
    transcodedSample ld mem p t =
      q23Sample ld mem p (sampleSizeFor t) (F32.mul t.gain kScaleQ23ToFloat) := by
  funext i; simp [transcodedSample, h]

theorem transcodedSample_eq_32 (ld : Mem → Int → Nat → Int) (mem : Mem) (p : Int)
    (t : BtifAvrcpAudioTrack) (h : t.bitsPerSample = 32) :
    transcodedSample ld mem p t = q31Sample mem p (F32.mul t.gain kScaleQ31ToFloat) := by
  funext i; simp [transcodedSample, h]

theorem transcodeToPcmFloat_supported (ld : Mem → Int → Nat → Int) (mem : Mem) (p : Int)
    (length : Nat) (t : BtifAvrcpAudioTrack)
    (hd : t.bitsPerSample = 16 ∨ t.bitsPerSample = 24 ∨ t.bitsPerSample = 32) :
    transcodeToPcmFloat ld mem p length t =
      (min t.bufferLength (length / sampleSizeFor t) * sampleSizeFor t % SIZE_MODULUS,
       { t with buffer := storeSamples (transcodedSample ld mem p t)
                  (min t.bufferLength (length / sampleSizeFor t)) t.buffer }) := by
  rcases hd with h | h | h
  · rw [transcodedSample_eq_16 ld mem p t h]
    simp [transcodeToPcmFloat, transcodeQ15ToFloat, h]
  · rw [transcodedSample_eq_24 ld mem p t h]
    simp [transcodeToPcmFloat, transcodeQ23ToFloat, h]
  · rw [transcodedSample_eq_32 ld mem p t h]
    simp [transcodeToPcmFloat, transcodeQ31ToFloat, h]

theorem transcodeToPcmFloat_unsupported (ld : Mem → Int → Nat → Int) (mem : Mem) (p : Int)
    (length : Nat) (t : BtifAvrcpAudioTrack)
    (h16 : t.bitsPerSample ≠ 16) (h24 : t.bitsPerSample ≠ 24) (h32 : t.bitsPerSample ≠ 32) :
    transcodeToPcmFloat ld mem p length t = (18446744073709551615, t) := by
  simp [transcodeToPcmFloat, h16, h24, h32, toSizeT_neg_one]

theorem sampleSizeFor_supported (t : BtifAvrcpAudioTrack)
    (hd : t.bitsPerSample = 16 ∨ t.bitsPerSample = 24 ∨ t.bitsPerSample = 32) :
    (sampleSizeFor t : Int) = t.bitsPerSample / 8 ∧
      (sampleSizeFor t = 2 ∨ sampleSizeFor t = 3 ∨ sampleSizeFor t = 4) := by
  rcases hd with h | h | h
  · rw [sampleSizeFor_16 t h, h]; exact ⟨by decide, by simp⟩
  · rw [sampleSizeFor_24 t h, h]; exact ⟨by decide, by simp⟩
  · rw [sampleSizeFor_32 t h, h]; exact ⟨by decide, by simp⟩

theorem consumed_le_length (b length ss : Nat) : min b (length / ss) * ss ≤ length := by
  calc min b (length / ss) * ss ≤ length / ss * ss := Nat.mul_le_mul_right _ (Nat.min_le_right _ _)
    _ ≤ length := Nat.div_mul_le_self _ _

theorem consumed_mod (b length ss : Nat) (h : length < SIZE_MODULUS) :
    min b (length / ss) * ss % SIZE_MODULUS = min b (length / ss) * ss :=
  Nat.mod_eq_of_lt (lt_of_le_of_lt (consumed_le_length b length ss) h)

/-- Claim C5.  For a bit depth of 16, 24 or 32 and any input length (a `size_t`) and float-array
length, `transcodeToPcmFloat` returns `sampleCount * sampleSize` with `sampleSize =
bitsPerSample / 8` and `sampleCount = min (bufferLength, length / sampleSize)`; when `length` is a
multiple of `sampleSize` with `length / sampleSize ≤ bufferLength` it returns `length`, each of
the first `length / sampleSize` floats holds the conversion of the corresponding input sample,
and no other float is stored. -/
theorem transcodeToPcmFloat_returns_consumed_bytes (ld : Mem → Int → Nat → Int) (mem : Mem)
    (p : Int) (length : Nat) (t : BtifAvrcpAudioTrack)
    (hd : t.bitsPerSample = 16 ∨ t.bitsPerSample = 24 ∨ t.bitsPerSample = 32)
    (hlen : length < SIZE_MODULUS) :
    (sampleSizeFor t : Int) = t.bitsPerSample / 8 ∧
    (transcodeToPcmFloat ld mem p length t).1 =
      min t.bufferLength (length / sampleSizeFor t) * sampleSizeFor t ∧
    (sampleSizeFor t ∣ length → length / sampleSizeFor t ≤ t.bufferLength →
      (transcodeToPcmFloat ld mem p length t).1 = length ∧
      (∀ i, i < length / sampleSizeFor t →
        (transcodeToPcmFloat ld mem p length t).2.buffer i = transcodedSample ld mem p t i) ∧
      (∀ i, length / sampleSizeFor t ≤ i →
        (transcodeToPcmFloat ld mem p length t).2.buffer i = t.buffer i)) := by
  rw [transcodeToPcmFloat_supported ld mem p length t hd]
  refine ⟨(sampleSizeFor_supported t hd).1, consumed_mod _ _ _ hlen, ?_⟩
  intro hdvd hfit
  have hmin : min t.bufferLength (length / sampleSizeFor t) = length / sampleSizeFor t :=
    Nat.min_eq_right hfit
  refine ⟨?_, ?_, ?_⟩
  · show _ % SIZE_MODULUS = length
    rw [consumed_mod _ _ _ hlen, hmin]
    exact Nat.div_mul_cancel hdvd
  · intro i hi
    show storeSamples _ _ _ i = _
    rw [hmin]
    exact storeSamples_lt _ _ _ _ hi
  · intro i hi
    show storeSamples _ _ _ i = _
    rw [hmin]
    exact storeSamples_ge _ _ _ _ hi

/-- Witness of C5: a 16-bit track with a four-float array and an 8-byte input. -/
theorem transcodeToPcmFloat_returns_consumed_bytes_witness :
    (transcodeToPcmFloat (fun _ _ _ => 0) (fun _ => 0) 0 8
        { stream := 1, bitsPerSample := 16, channelCount := 2, format := 2,
          buffer := fun _ => F32.zero false, bufferLength := 4, gain := F32.one }).1 = 8 := by
  have h := transcodeToPcmFloat_returns_consumed_bytes (fun _ _ _ => 0) (fun _ => 0) 0 8
    { stream := 1, bitsPerSample := 16, channelCount := 2, format := 2,
      buffer := fun _ => F32.zero false, bufferLength := 4, gain := F32.one }
    (Or.inl rfl) (by decide)
  exact (h.2.2 (by decide) (by decide)).1

/-- Claim C8.  When `bitsPerSample` is none of 16, 24, 32, `transcodeToPcmFloat` returns the
sentinel `(size_t)-1` (all bits set, `-1` as a signed count) for every input address and length
and leaves the track, float memory included, as it was.  When `bitsPerSample` is 16, 24 or 32 the
result is never the sentinel, for every `size_t` length and every track whose float array is
allocated (`bufferLength * sizeof(float)` fits the 64-bit address space). -/
theorem transcodeToPcmFloat_sentinel_iff_unsupported (ld : Mem → Int → Nat → Int) (mem : Mem)
    (p : Int) (length : Nat) (t : BtifAvrcpAudioTrack) :
    (t.bitsPerSample ≠ 16 → t.bitsPerSample ≠ 24 → t.bitsPerSample ≠ 32 →
      (transcodeToPcmFloat ld mem p length t).1 = toSizeT (-1) ∧
      toInt32 ((transcodeToPcmFloat ld mem p length t).1 : Int) = -1 ∧
      (transcodeToPcmFloat ld mem p length t).2.buffer = t.buffer ∧
      (transcodeToPcmFloat ld mem p length t).2 = t) ∧
    (t.bitsPerSample = 16 ∨ t.bitsPerSample = 24 ∨ t.bitsPerSample = 32 →
      length < SIZE_MODULUS → t.bufferLength * 4 < SIZE_MODULUS →
      (transcodeToPcmFloat ld mem p length t).1 ≠ toSizeT (-1)) := by
  constructor
  · intro h16 h24 h32
    rw [transcodeToPcmFloat_unsupported ld mem p length t h16 h24 h32, toSizeT_neg_one]
    exact ⟨rfl, by show toInt32 ((18446744073709551615 : Nat) : Int) = -1; decide, rfl, rfl⟩
  · intro hd hlen halloc
    rw [transcodeToPcmFloat_supported ld mem p length t hd, toSizeT_neg_one]
    show _ % SIZE_MODULUS ≠ _
    rw [consumed_mod _ _ _ hlen]
    have hle : min t.bufferLength (length / sampleSizeFor t) ≤ t.bufferLength :=
      Nat.min_le_left _ _
    unfold SIZE_MODULUS at halloc
    rcases (sampleSizeFor_supported t hd).2 with h | h | h <;> rw [h] <;> omega

/-- Witness of C8: an 8-bit track yields the sentinel, a 24-bit track does not. -/
theorem transcodeToPcmFloat_sentinel_iff_unsupported_witness :
    (transcodeToPcmFloat (fun _ _ _ => 0) (fun _ => 0) 0 6
        { stream := 1, bitsPerSample := 8, channelCount := 2, format := 2,
          buffer := fun _ => F32.zero false, bufferLength := 4, gain := F32.one }).1
      = toSizeT (-1) ∧
    (transcodeToPcmFloat (fun _ _ _ => 0) (fun _ => 0) 0 6
        { stream := 1, bitsPerSample := 24, channelCount := 2, format := 2,
          buffer := fun _ => F32.zero false, bufferLength := 4, gain := F32.one }).1
      ≠ toSizeT (-1) :=
  ⟨((transcodeToPcmFloat_sentinel_iff_unsupported (fun _ _ _ => 0) (fun _ => 0) 0 6
      { stream := 1, bitsPerSample := 8, channelCount := 2, format := 2,
        buffer := fun _ => F32.zero false, bufferLength := 4, gain := F32.one }).1
      (by decide) (by decide) (by decide)).1,
   (transcodeToPcmFloat_sentinel_iff_unsupported (fun _ _ _ => 0) (fun _ => 0) 0 6
      { stream := 1, bitsPerSample := 24, channelCount := 2, format := 2,
        buffer := fun _ => F32.zero false, bufferLength := 4, gain := F32.one }).2
      (Or.inr (Or.inl rfl)) (by decide) (by decide)⟩

/-- Claim C9.  On a track with a supported bit depth, a transcode call stores only at float
indices below `sampleCount = min (bufferLength, length / sampleSize)`: every float at an index
`≥ sampleCount`, hence every float at an index `≥ bufferLength` (outside the array), keeps its
value, and `bufferLength`, `gain`, `bitsPerSample` and `channelCount` are unchanged. -/
theorem transcodeToPcmFloat_frame (ld : Mem → Int → Nat → Int) (mem : Mem)
    (p : Int) (length : Nat) (t : BtifAvrcpAudioTrack)
    (hd : t.bitsPerSample = 16 ∨ t.bitsPerSample = 24 ∨ t.bitsPerSample = 32) :
    (∀ j, min t.bufferLength (length / sampleSizeFor t) ≤ j →
      (transcodeToPcmFloat ld mem p length t).2.buffer j = t.buffer j) ∧
    (∀ j, t.bufferLength ≤ j →
      (transcodeToPcmFloat ld mem p length t).2.buffer j = t.buffer j) ∧
    (transcodeToPcmFloat ld mem p length t).2.bufferLength = t.bufferLength ∧
    (transcodeToPcmFloat ld mem p length t).2.gain = t.gain ∧
    (transcodeToPcmFloat ld mem p length t).2.bitsPerSample = t.bitsPerSample ∧
    (transcodeToPcmFloat ld mem p length t).2.channelCount = t.channelCount := by
  rw [transcodeToPcmFloat_supported ld mem p length t hd]
  refine ⟨?_, ?_, rfl, rfl, rfl, rfl⟩
  · intro j hj
    exact storeSamples_ge _ _ _ _ hj
  · intro j hj
    exact storeSamples_ge _ _ _ _ (le_trans (Nat.min_le_left _ _) hj)

/-- Witness of C9: a 32-bit track with a two-float array fed 40 bytes keeps float 2. -/
theorem transcodeToPcmFloat_frame_witness :
    (transcodeToPcmFloat (fun _ _ _ => 0) (fun _ => 255) 0 40
        { stream := 1, bitsPerSample := 32, channelCount := 2, format := 2,
          buffer := fun _ => F32.one, bufferLength := 2, gain := F32.one }).2.buffer 2
      = F32.one :=
  (transcodeToPcmFloat_frame (fun _ _ _ => 0) (fun _ => 255) 0 40
      { stream := 1, bitsPerSample := 32, channelCount := 2, format := 2,
        buffer := fun _ => F32.one, bufferLength := 2, gain := F32.one }
      (Or.inr (Or.inr rfl))).2.1 2 (by decide)

/-! ## The write loop on sample-aligned input -/

theorem ceilDiv_sub (r l : Nat) (hl : 0 < l) (h : l < r) :
    ceilDiv (r - l) l + 1 = ceilDiv r l ∧ 1 ≤ ceilDiv (r - l) l := by
  unfold ceilDiv
  have h1 : r - l + l - 1 = r - 1 := by omega
  have h2 : r + l - 1 = r - 1 + l := by omega
  rw [h1, h2, Nat.add_div_right _ hl]
  refine ⟨rfl, ?_⟩
  exact (Nat.one_le_div_iff hl).mpr (by omega)

theorem ceilDiv_le_one (r l : Nat) (hl : 0 < l) (h : r ≤ l) : ceilDiv r l ≤ 1 := by
  unfold ceilDiv
  have : (r + l - 1) / l < 2 := (Nat.div_lt_iff_lt_mul hl).mpr (by omega)
  omega

theorem ceilDiv_pos (r l : Nat) (hl : 0 < l) (h : 0 < r) : 1 ≤ ceilDiv r l := by
  unfold ceilDiv
  exact (Nat.one_le_div_iff hl).mpr (by omega)

theorem ceilDiv_mono (a b l : Nat) (h : a ≤ b) : ceilDiv a l ≤ ceilDiv b l := by
  unfold ceilDiv
  exact Nat.div_le_div_right (by omega)

/-- One iteration on a state that has consumed `k` whole samples of a `r`-byte input: it
transcodes `min bufferLength ((r - ss * k) / ss)` further samples and issues one stream write whose
frame count is computed from the new running total. -/
theorem writeStep_supported (ld : Mem → Int → Nat → Int) (mem : Mem) (ss r k : Nat)
    (s : WriteState)
    (hd : s.track.bitsPerSample = 16 ∨ s.track.bitsPerSample = 24 ∨ s.track.bitsPerSample = 32)
    (hss : sampleSizeFor s.track = ss)
    (hfmt : s.track.format = AAUDIO_FORMAT_PCM_FLOAT)
    (hch : 1 ≤ s.track.channelCount) (hch2 : s.track.channelCount < 2147483648)
    (hr : r < 2147483648) (hk : ss * k ≤ r)
    (htc : s.transcodedCount = ((ss * k : Nat) : Int)) :
    ∃ s1, writeStep ld mem (r : Int) ss s = Except.ok s1 ∧
      s1.transcodedCount =
        ((ss * (k + min s.track.bufferLength ((r - ss * k) / ss)) : Nat) : Int) ∧
      s1.writes = s.writes ++
        [{ stream := s.track.stream
           numFrames := toInt32 (((ss * (k + min s.track.bufferLength ((r - ss * k) / ss))) /
              (ss * s.track.channelCount.toNat) : Nat) : Int)
           timeoutNanoseconds := kTimeoutNanos }] ∧
      s1.track.bitsPerSample = s.track.bitsPerSample ∧
      s1.track.channelCount = s.track.channelCount ∧
      s1.track.format = s.track.format ∧
      s1.track.bufferLength = s.track.bufferLength ∧
      s1.track.stream = s.track.stream ∧
      ss * (k + min s.track.bufferLength ((r - ss * k) / ss)) ≤ r := by
  have hss3 : ss = 2 ∨ ss = 3 ∨ ss = 4 := hss ▸ (sampleSizeFor_supported s.track hd).2
  have hsspos : 0 < ss := by omega
  have hlen : toSizeT (toInt32 ((r : Int) - s.transcodedCount)) = r - ss * k := by
    rw [htc]
    unfold toSizeT toInt32
    omega
  have hcons : min s.track.bufferLength ((r - ss * k) / ss) * ss ≤ r - ss * k :=
    consumed_le_length _ _ _
  have hbound : ss * (k + min s.track.bufferLength ((r - ss * k) / ss)) ≤ r := by
    rw [Nat.mul_add, Nat.mul_comm ss (min _ _)]
    omega
  have htc1 : toInt32 (((toSizeT s.transcodedCount +
      min s.track.bufferLength ((r - ss * k) / ss) * ss % SIZE_MODULUS) % SIZE_MODULUS : Nat)
        : Int)
      = ((ss * (k + min s.track.bufferLength ((r - ss * k) / ss)) : Nat) : Int) := by
    rw [htc, Nat.mul_add, Nat.mul_comm ss (min _ _)]
    unfold toSizeT toInt32 SIZE_MODULUS
    omega
  have hchn : toSizeT s.track.channelCount = s.track.channelCount.toNat :=
    toSizeT_of_nonneg _ (by omega) (by omega)
  have hdivisor : ss * toSizeT s.track.channelCount % SIZE_MODULUS
      = ss * s.track.channelCount.toNat := by
    rw [hchn]
    apply Nat.mod_eq_of_lt
    unfold SIZE_MODULUS
    rcases hss3 with h | h | h <;> subst h <;> omega
  have hdivisor0 : ss * s.track.channelCount.toNat ≠ 0 := by
    rcases hss3 with h | h | h <;> subst h <;> omega
  have hfmt2 : ¬ s.track.format ≠ AAUDIO_FORMAT_PCM_FLOAT := by simp [hfmt]
  unfold writeStep
  rw [if_neg hfmt2]
  simp only [transcodeToPcmFloat_supported ld mem _ _ s.track hd, hss, hlen, htc1,
    hdivisor, if_neg hdivisor0]
  refine ⟨_, rfl, rfl, ?_, rfl, rfl, rfl, rfl, rfl, hbound⟩
  have hsmall : ss * (k + min s.track.bufferLength ((r - ss * k) / ss))
      < 18446744073709551616 := lt_of_le_of_lt hbound (by omega)
  simp only
  rw [toSizeT_natCast _ hsmall]

/-- The step on sample-aligned input of `n` samples. -/
theorem writeStep_aligned (ld : Mem → Int → Nat → Int) (mem : Mem) (ss n k : Nat)
    (s : WriteState)
    (hd : s.track.bitsPerSample = 16 ∨ s.track.bitsPerSample = 24 ∨ s.track.bitsPerSample = 32)
    (hss : sampleSizeFor s.track = ss)
    (hfmt : s.track.format = AAUDIO_FORMAT_PCM_FLOAT)
    (hch : 1 ≤ s.track.channelCount) (hch2 : s.track.channelCount < 2147483648)
    (hn : ss * n < 2147483648) (hk : k ≤ n)
    (htc : s.transcodedCount = ((ss * k : Nat) : Int)) :
    ∃ s1, writeStep ld mem ((ss * n : Nat) : Int) ss s = Except.ok s1 ∧
      s1.transcodedCount = ((ss * (k + min s.track.bufferLength (n - k)) : Nat) : Int) ∧
      s1.writes = s.writes ++
        [{ stream := s.track.stream
           numFrames := toInt32 (((ss * (k + min s.track.bufferLength (n - k))) /
              (ss * s.track.channelCount.toNat) : Nat) : Int)
           timeoutNanoseconds := kTimeoutNanos }] ∧
      s1.track.bitsPerSample = s.track.bitsPerSample ∧
      s1.track.channelCount = s.track.channelCount ∧
      s1.track.format = s.track.format ∧
      s1.track.bufferLength = s.track.bufferLength ∧
      s1.track.stream = s.track.stream := by
  have hss3 : ss = 2 ∨ ss = 3 ∨ ss = 4 := hss ▸ (sampleSizeFor_supported s.track hd).2
  have hsspos : 0 < ss := by omega
  have hdiv : (ss * n - ss * k) / ss = n - k := by
    rw [← Nat.mul_sub, Nat.mul_div_cancel_left _ hsspos]
  obtain ⟨s1, h1, h2, h3, h4, h5, h6, h7, h8, _⟩ :=
    writeStep_supported ld mem ss (ss * n) k s hd hss hfmt hch hch2 hn
      (Nat.mul_le_mul_left _ hk) htc
  rw [hdiv] at h2 h3
  exact ⟨s1, h1, h2, h3, h4, h5, h6, h7, h8⟩

/-- The loop, started after `k` of `n` samples, returns with all `n` consumed after
`max 1 (ceil ((n - k) / bufferLength))` further stream writes. -/
theorem writeLoop_aligned (ld : Mem → Int → Nat → Int) (mem : Mem) (ss n l : Nat)
    (hn : ss * n < 2147483648) (hl : 1 ≤ l) :
    ∀ (fuel : Nat) (s : WriteState) (k : Nat),
      (s.track.bitsPerSample = 16 ∨ s.track.bitsPerSample = 24 ∨ s.track.bitsPerSample = 32) →
      sampleSizeFor s.track = ss →
      s.track.format = AAUDIO_FORMAT_PCM_FLOAT →
      1 ≤ s.track.channelCount → s.track.channelCount < 2147483648 →
      s.track.bufferLength = l →
      k ≤ n → s.transcodedCount = ((ss * k : Nat) : Int) →
      max 1 (ceilDiv (n - k) l) ≤ fuel →
      ∃ s2, writeLoop ld mem ((ss * n : Nat) : Int) ss fuel s = Except.ok s2 ∧
        s2.transcodedCount = ((ss * n : Nat) : Int) ∧
        s2.writes.length = s.writes.length + max 1 (ceilDiv (n - k) l) := by
  intro fuel
  induction fuel with
  | zero => intro s k _ _ _ _ _ _ _ _ hfuel; omega
  | succ fuel ih =>
    intro s k hd hss hfmt hch hch2 hlen hk htc hfuel
    obtain ⟨s1, hstep, htc1, hw1, hb1, hc1, hf1, hl1, _⟩ :=
      writeStep_aligned ld mem ss n k s hd hss hfmt hch hch2 hn hk htc
    have hss3 : ss = 2 ∨ ss = 3 ∨ ss = 4 := hss ▸ (sampleSizeFor_supported s.track hd).2
    have hsspos : 0 < ss := by omega
    have hss1 : sampleSizeFor s1.track = ss := by
      rw [← hss]; unfold sampleSizeFor; rw [hb1]
    rw [hlen] at htc1
    unfold writeLoop
    rw [hstep]
    simp only
    by_cases hlt : s1.transcodedCount < ((ss * n : Nat) : Int)
    · rw [if_pos hlt]
      rw [htc1] at hlt
      have hlt2 : ss * (k + min l (n - k)) < ss * n := by exact_mod_cast hlt
      have hk1 : k + min l (n - k) < n := Nat.lt_of_mul_lt_mul_left hlt2
      have hmin : min l (n - k) = l := by omega
      rw [hmin] at htc1 hk1
      obtain ⟨hc, hpos⟩ := ceilDiv_sub (n - k) l (by omega) (by omega)
      have hrem : n - (k + l) = n - k - l := by omega
      obtain ⟨s2, hloop, htc2, hw2⟩ := ih s1 (k + l) (hb1 ▸ hd) hss1 (hf1 ▸ hfmt)
        (hc1 ▸ hch) (hc1 ▸ hch2) (hl1 ▸ hlen) (by omega) htc1 (by rw [hrem]; omega)
      refine ⟨s2, hloop, htc2, ?_⟩
      rw [hw2, hw1, hrem]
      simp only [List.length_append, List.length_singleton]
      omega
    · rw [if_neg hlt]
      rw [htc1] at hlt
      have hge : ss * n ≤ ss * (k + min l (n - k)) := by
        have : ¬ (ss * (k + min l (n - k)) < ss * n) := by
          intro h; exact hlt (by exact_mod_cast h)
        omega
      have hk1 : n ≤ k + min l (n - k) := Nat.le_of_mul_le_mul_left hge hsspos
      have hmin : min l (n - k) = n - k := by omega
      have hone := ceilDiv_le_one (n - k) l (by omega) (by omega)
      refine ⟨s1, rfl, ?_, ?_⟩
      · rw [htc1, hmin]
        have : k + (n - k) = n := by omega
        rw [this]
      · rw [hw1]
        simp only [List.length_append, List.length_singleton]
        omega

/-- A whole call on sample-aligned input: it returns, with `rawLength` consumed, after
`max 1 (ceil (n / bufferLength))` stream writes, `n` being the number of samples. -/
theorem writeData_aligned (ld : Mem → Int → Nat → Int) (fuel : Nat) (t : BtifAvrcpAudioTrack)
    (mem : Mem) (rawLength : Int)
    (hd : t.bitsPerSample = 16 ∨ t.bitsPerSample = 24 ∨ t.bitsPerSample = 32)
    (hch : 1 ≤ t.channelCount) (hch2 : t.channelCount < 2147483648)
    (hl : 1 ≤ t.bufferLength) (hstream : t.stream ≠ 0)
    (hfmt : t.format = AAUDIO_FORMAT_PCM_FLOAT)
    (h0 : 0 ≤ rawLength) (h1 : rawLength < 2147483648)
    (halign : (sampleSizeFor t : Int) ∣ rawLength)
    (hfuel : max 1 (ceilDiv (rawLength.toNat / sampleSizeFor t) t.bufferLength) ≤ fuel) :
    ∃ s, BtifAvrcpAudioTrackWriteData ld fuel (some t) mem rawLength = Except.ok s ∧
      s.transcodedCount = rawLength ∧
      s.writes.length = max 1 (ceilDiv (rawLength.toNat / sampleSizeFor t) t.bufferLength) := by
  have hss3 := (sampleSizeFor_supported t hd).2
  have hsspos : 0 < sampleSizeFor t := by omega
  obtain ⟨q, hq⟩ := halign
  have hq0 : 0 ≤ q := by
    by_contra hneg
    have : (sampleSizeFor t : Int) * q < 0 :=
      Int.mul_neg_of_pos_of_neg (by exact_mod_cast hsspos) (by omega)
    omega
  obtain ⟨n, rfl⟩ := Int.eq_ofNat_of_zero_le hq0
  have hraw : rawLength = ((sampleSizeFor t * n : Nat) : Int) := by rw [hq]; push_cast; rfl
  have hnat : rawLength.toNat / sampleSizeFor t = n := by
    rw [hraw, Int.toNat_ofNat, Nat.mul_div_cancel_left _ hsspos]
  rw [hnat] at hfuel ⊢
  have hn : sampleSizeFor t * n < 2147483648 := by
    rw [hraw] at h1; exact_mod_cast h1
  unfold BtifAvrcpAudioTrackWriteData
  simp only [if_neg hstream]
  obtain ⟨s2, hloop, htc2, hw2⟩ := writeLoop_aligned ld mem (sampleSizeFor t) n t.bufferLength
    hn hl fuel { track := t, transcodedCount := 0, writes := [] } 0 hd rfl hfmt hch hch2 rfl
    (Nat.zero_le _) (by simp) (by simpa using hfuel)
  rw [hraw]
  refine ⟨s2, hloop, htc2, ?_⟩
  simpa using hw2

/-- Claim C1.  On a track with `bitsPerSample` in {16, 24, 32}, `channelCount ≥ 1` and a float
array of at least one element (the track's stream being open and its format float, as
`BtifAvrcpAudioTrackCreate` leaves them), for every `rawLength ≥ 0` that is a multiple of
`sampleSize`, `BtifAvrcpAudioTrackWriteData` terminates (every fuel from the iteration count
`max 1 (ceil (n / bufferLength))` on gives the same outcome) and returns exactly `rawLength`. -/
theorem writeData_returns_rawLength (ld : Mem → Int → Nat → Int) (fuel : Nat)
    (t : BtifAvrcpAudioTrack) (mem : Mem) (rawLength : Int)
    (hd : t.bitsPerSample = 16 ∨ t.bitsPerSample = 24 ∨ t.bitsPerSample = 32)
    (hch : 1 ≤ t.channelCount) (hch2 : t.channelCount < 2147483648)
    (hl : 1 ≤ t.bufferLength) (hstream : t.stream ≠ 0)
    (hfmt : t.format = AAUDIO_FORMAT_PCM_FLOAT)
    (h0 : 0 ≤ rawLength) (h1 : rawLength < 2147483648)
    (halign : (sampleSizeFor t : Int) ∣ rawLength)
    (hfuel : max 1 (ceilDiv (rawLength.toNat / sampleSizeFor t) t.bufferLength) ≤ fuel) :
    ∃ s, BtifAvrcpAudioTrackWriteData ld fuel (some t) mem rawLength = Except.ok s ∧
      s.transcodedCount = rawLength := by
  obtain ⟨s, hs, htc, _⟩ :=
    writeData_aligned ld fuel t mem rawLength hd hch hch2 hl hstream hfmt h0 h1 halign hfuel
  exact ⟨s, hs, htc⟩

/-- Claim C7.  On a track with a supported bit depth and a float array of at least one element,
for sample-aligned `rawLength ≥ 0` holding `n = rawLength / sampleSize` samples, the number of
stream writes issued by `BtifAvrcpAudioTrackWriteData` is exactly
`max 1 (ceil (n / bufferLength))`; it is more than one whenever `n > bufferLength`, and for
`rawLength > 0` it is at most `ceil (rawLength / bufferLength)`. -/
theorem writeData_write_count (ld : Mem → Int → Nat → Int) (fuel : Nat)
    (t : BtifAvrcpAudioTrack) (mem : Mem) (rawLength : Int)
    (hd : t.bitsPerSample = 16 ∨ t.bitsPerSample = 24 ∨ t.bitsPerSample = 32)
    (hch : 1 ≤ t.channelCount) (hch2 : t.channelCount < 2147483648)
    (hl : 1 ≤ t.bufferLength) (hstream : t.stream ≠ 0)
    (hfmt : t.format = AAUDIO_FORMAT_PCM_FLOAT)
    (h0 : 0 ≤ rawLength) (h1 : rawLength < 2147483648)
    (halign : (sampleSizeFor t : Int) ∣ rawLength)
    (hfuel : max 1 (ceilDiv (rawLength.toNat / sampleSizeFor t) t.bufferLength) ≤ fuel) :
    ∃ s, BtifAvrcpAudioTrackWriteData ld fuel (some t) mem rawLength = Except.ok s ∧
      s.writes.length = max 1 (ceilDiv (rawLength.toNat / sampleSizeFor t) t.bufferLength) ∧
      (t.bufferLength < rawLength.toNat / sampleSizeFor t → 1 < s.writes.length) ∧
      (0 < rawLength → s.writes.length ≤ ceilDiv rawLength.toNat t.bufferLength) := by
  obtain ⟨s, hs, _, hw⟩ :=
    writeData_aligned ld fuel t mem rawLength hd hch hch2 hl hstream hfmt h0 h1 halign hfuel
  refine ⟨s, hs, hw, ?_, ?_⟩
  · intro hbig
    rw [hw]
    obtain ⟨hc, hpos⟩ := ceilDiv_sub _ _ hl hbig
    omega
  · intro hpos
    rw [hw]
    have hss3 := (sampleSizeFor_supported t hd).2
    have hsspos : 0 < sampleSizeFor t := by omega
    have hle : rawLength.toNat / sampleSizeFor t ≤ rawLength.toNat := Nat.div_le_self _ _
    have h2 := ceilDiv_mono _ _ t.bufferLength hle
    have h3 := ceilDiv_pos rawLength.toNat t.bufferLength hl (by omega)
    omega

/-- Witness of C1: 16 bytes on a 16-bit stereo track with a four-float array. -/
theorem writeData_returns_rawLength_witness :
    ∃ s, BtifAvrcpAudioTrackWriteData (fun _ _ _ => 0) 2
        (some { stream := 1, bitsPerSample := 16, channelCount := 2, format := 2,
                buffer := fun _ => F32.zero false, bufferLength := 4, gain := F32.one })
        (fun _ => 0) 16 = Except.ok s ∧ s.transcodedCount = 16 :=
  writeData_returns_rawLength (fun _ _ _ => 0) 2
    { stream := 1, bitsPerSample := 16, channelCount := 2, format := 2,
      buffer := fun _ => F32.zero false, bufferLength := 4, gain := F32.one }
    (fun _ => 0) 16 (Or.inl rfl) (by decide) (by decide) (by decide) (by decide) rfl
    (by decide) (by decide) ⟨8, by decide⟩ (by decide)

/-- Witness of C7: 36 bytes (9 samples) on a 32-bit track with a four-float array take three
stream writes. -/
theorem writeData_write_count_witness :
    ∃ s, BtifAvrcpAudioTrackWriteData (fun _ _ _ => 0) 3
        (some { stream := 1, bitsPerSample := 32, channelCount := 1, format := 2,
                buffer := fun _ => F32.zero false, bufferLength := 4, gain := F32.one })
        (fun _ => 0) 36 = Except.ok s ∧ s.writes.length = 3 := by
  obtain ⟨s, hs, hw, _⟩ := writeData_write_count (fun _ _ _ => 0) 3
    { stream := 1, bitsPerSample := 32, channelCount := 1, format := 2,
      buffer := fun _ => F32.zero false, bufferLength := 4, gain := F32.one }
    (fun _ => 0) 36 (Or.inr (Or.inr rfl)) (by decide) (by decide) (by decide) (by decide) rfl
    (by decide) (by decide) ⟨9, by decide⟩ (by decide)
  exact ⟨s, hs, hw.trans (by decide)⟩

/-! ## Unsupported bit depth -/

/-- Claim C10.  On a track whose `bitsPerSample` is at least 8 and none of 16, 24, 32, with
`channelCount ≥ 1` (stream open, format float), for every `rawLength ≥ 0`: the first loop
iteration is not rejected, it leaves the running total at `-1` (the sentinel `(size_t)-1` added
in `size_t` and converted back to `int`), it has issued one stream write and left the track as it
was, the loop condition `transcodedCount < bufferLength` holds, and the call goes on into a second
iteration from that state: with fuel for a single iteration it has not returned. -/
theorem writeData_unsupported_depth_accumulates_sentinel (ld : Mem → Int → Nat → Int)
    (t : BtifAvrcpAudioTrack) (mem : Mem) (rawLength : Int)
    (hb8 : 8 ≤ t.bitsPerSample) (hb : t.bitsPerSample < 2147483648)
    (h16 : t.bitsPerSample ≠ 16) (h24 : t.bitsPerSample ≠ 24) (h32 : t.bitsPerSample ≠ 32)
    (hch : 1 ≤ t.channelCount) (hch2 : t.channelCount < 2147483648)
    (hstream : t.stream ≠ 0) (hfmt : t.format = AAUDIO_FORMAT_PCM_FLOAT)
    (h0 : 0 ≤ rawLength) :
    ∃ s1, writeStep ld mem rawLength (sampleSizeFor t)
        { track := t, transcodedCount := 0, writes := [] } = Except.ok s1 ∧
      s1.transcodedCount = -1 ∧
      s1.writes.length = 1 ∧
      s1.track = t ∧
      s1.transcodedCount < rawLength ∧
      (∀ fuel, BtifAvrcpAudioTrackWriteData ld (fuel + 1) (some t) mem rawLength =
        writeLoop ld mem rawLength (sampleSizeFor t) fuel s1) ∧
      BtifAvrcpAudioTrackWriteData ld 1 (some t) mem rawLength =
        Except.error WriteFault.fuelExhausted := by
  have hss : sampleSizeFor t = (t.bitsPerSample / 8).toNat := by
    unfold sampleSizeFor
    rw [Int.tdiv_eq_ediv (by omega) (by decide)]
    exact toSizeT_of_nonneg _ (by omega) (by omega)
  have hsslo : 1 ≤ sampleSizeFor t := by rw [hss]; omega
  have hsshi : sampleSizeFor t < 268435456 := by rw [hss]; omega
  have hchn : toSizeT t.channelCount = t.channelCount.toNat :=
    toSizeT_of_nonneg _ (by omega) (by omega)
  have hchlo : 1 ≤ t.channelCount.toNat := by omega
  have hchhi : t.channelCount.toNat < 2147483648 := by omega
  have hprodhi : sampleSizeFor t * t.channelCount.toNat < 268435456 * 2147483648 :=
    Nat.mul_lt_mul_of_lt_of_lt hsshi hchhi
  have hdivisor : sampleSizeFor t * toSizeT t.channelCount % SIZE_MODULUS ≠ 0 := by
    rw [hchn, Nat.mod_eq_of_lt (by unfold SIZE_MODULUS; omega)]
    exact Nat.pos_iff_ne_zero.mp (Nat.mul_pos (by omega) (by omega))
  have hfmt2 : ¬ t.format ≠ AAUDIO_FORMAT_PCM_FLOAT := by simp [hfmt]
  have hstep : ∃ s1, writeStep ld mem rawLength (sampleSizeFor t)
      { track := t, transcodedCount := 0, writes := [] } = Except.ok s1 ∧
      s1.transcodedCount = -1 ∧ s1.writes.length = 1 ∧ s1.track = t := by
    unfold writeStep
    simp only [if_neg hfmt2, transcodeToPcmFloat_unsupported ld mem _ _ t h16 h24 h32,
      if_neg hdivisor]
    exact ⟨_, rfl, by show toInt32 (((toSizeT 0 + 18446744073709551615) % SIZE_MODULUS : Nat) : Int) = -1; decide, rfl, rfl⟩
  obtain ⟨s1, hs1, htc, hw, htr⟩ := hstep
  have hlt : s1.transcodedCount < rawLength := by omega
  have hcont : ∀ fuel, BtifAvrcpAudioTrackWriteData ld (fuel + 1) (some t) mem rawLength =
      writeLoop ld mem rawLength (sampleSizeFor t) fuel s1 := by
    intro fuel
    unfold BtifAvrcpAudioTrackWriteData
    simp only [if_neg hstream]
    rw [writeLoop, hs1]
    simp only [if_pos hlt]
  refine ⟨s1, hs1, htc, hw, htr, hlt, hcont, ?_⟩
  rw [hcont 0]
  rfl

/-- Witness of C10: an 8-bit mono track asked to write 4 bytes. -/
theorem writeData_unsupported_depth_accumulates_sentinel_witness :
    ∃ s1, writeStep (fun _ _ _ => 0) (fun _ => 0) 4
        (sampleSizeFor { stream := 1, bitsPerSample := 8, channelCount := 1, format := 2,
                         buffer := fun _ => F32.zero false, bufferLength := 4, gain := F32.one })
        { track := { stream := 1, bitsPerSample := 8, channelCount := 1, format := 2,
                     buffer := fun _ => F32.zero false, bufferLength := 4, gain := F32.one },
          transcodedCount := 0, writes := [] } = Except.ok s1 ∧
      s1.transcodedCount = -1 := by
  obtain ⟨s1, hs1, htc, _⟩ := writeData_unsupported_depth_accumulates_sentinel
    (fun _ _ _ => 0)
    { stream := 1, bitsPerSample := 8, channelCount := 1, format := 2,
      buffer := fun _ => F32.zero false, bufferLength := 4, gain := F32.one }
    (fun _ => 0) 4 (by decide) (by decide) (by decide) (by decide) (by decide) (by decide)
    (by decide) (by decide) rfl (by decide)
  exact ⟨s1, hs1, htc⟩


/-! ## Frame counts and unaligned input -/

/-- On input whose length is not a multiple of the sample size the loop never exits: the running
total stays a multiple of `ss` that is at most `r`, hence below `r`, after every iteration. -/
theorem writeLoop_unaligned (ld : Mem → Int → Nat → Int) (mem : Mem) (ss r : Nat)
    (hr : r < 2147483648) (hrem : ¬ ss ∣ r) :
    ∀ (fuel : Nat) (s : WriteState) (k : Nat),
      (s.track.bitsPerSample = 16 ∨ s.track.bitsPerSample = 24 ∨ s.track.bitsPerSample = 32) →
      sampleSizeFor s.track = ss →
      s.track.format = AAUDIO_FORMAT_PCM_FLOAT →
      1 ≤ s.track.channelCount → s.track.channelCount < 2147483648 →
      ss * k ≤ r → s.transcodedCount = ((ss * k : Nat) : Int) →
      writeLoop ld mem (r : Int) ss fuel s = Except.error WriteFault.fuelExhausted := by
  intro fuel
  induction fuel with
  | zero => intro s k _ _ _ _ _ _ _; rfl
  | succ fuel ih =>
    intro s k hd hss hfmt hch hch2 hk htc
    obtain ⟨s1, hstep, htc1, _, hb1, hc1, hf1, _, _, hle⟩ :=
      writeStep_supported ld mem ss r k s hd hss hfmt hch hch2 hr hk htc
    have hss1 : sampleSizeFor s1.track = ss := by
      rw [← hss]; unfold sampleSizeFor; rw [hb1]
    have hne : ss * (k + min s.track.bufferLength ((r - ss * k) / ss)) ≠ r := by
      intro h; exact hrem ⟨_, h.symm⟩
    have hlt : s1.transcodedCount < (r : Int) := by
      rw [htc1]
      have : ss * (k + min s.track.bufferLength ((r - ss * k) / ss)) < r := by omega
      exact_mod_cast this
    unfold writeLoop
    rw [hstep]
    simp only [if_pos hlt]
    exact ih s1 _ (hb1 ▸ hd) hss1 (hf1 ▸ hfmt) (hc1 ▸ hch) (hc1 ▸ hch2) hle htc1

/-- Evaluation for claim C3.  A 16-bit mono track with a one-float array is given 3 bytes
(one sample and one stray byte): whatever the number of iterations allowed, the call has not
returned.  After the first iteration the running total is 2 and every later iteration transcodes
0 bytes, so `transcodedCount < bufferLength` (2 < 3) holds for ever. -/
theorem writeData_unaligned_never_returns (ld : Mem → Int → Nat → Int) (mem : Mem)
    (buffer : Nat → F32) (gain : F32) (fuel : Nat) :
    BtifAvrcpAudioTrackWriteData ld fuel
        (some { stream := 1, bitsPerSample := 16, channelCount := 1,
                format := AAUDIO_FORMAT_PCM_FLOAT, buffer := buffer, bufferLength := 1,
                gain := gain })
        mem 3 = Except.error WriteFault.fuelExhausted := by
  unfold BtifAvrcpAudioTrackWriteData
  simp only [if_neg (show ¬ (1 : Nat) = 0 by decide)]
  exact writeLoop_unaligned ld mem 2 3 (by decide) (by decide) fuel _ 0 (Or.inl rfl)
    (sampleSizeFor_16 _ rfl) rfl (by show (1 : Int) ≤ 1; decide)
    (by show (1 : Int) < 2147483648; decide) (by decide) rfl

/-- Evaluation for claim C2.  A 16-bit stereo track with a four-float array is given 16 bytes
(8 samples).  The first iteration leaves the running total at 8 after a write of 2 frames; the
call returns 16 after a second write of 4 frames.  The second iteration transcoded
`(16 - 8) / 2 = 4` samples, that is 2 frames, yet its write is told 4 frames, `4 * 2 = 8` floats
of a four-float array: the frame count is computed from the running total, not from the chunk. -/
theorem writeData_second_write_passes_cumulative_frames :
    observe (writeStep (fun _ _ _ => 0) (fun _ => 0) 16 2
        { track := { stream := 1, bitsPerSample := 16, channelCount := 2,
                     format := AAUDIO_FORMAT_PCM_FLOAT, buffer := fun _ => F32.zero false,
                     bufferLength := 4, gain := F32.one },
          transcodedCount := 0, writes := [] }) = some (8, [2]) ∧
    observe (BtifAvrcpAudioTrackWriteData (fun _ _ _ => 0) 2
        (some { stream := 1, bitsPerSample := 16, channelCount := 2,
                format := AAUDIO_FORMAT_PCM_FLOAT, buffer := fun _ => F32.zero false,
                bufferLength := 4, gain := F32.one })
        (fun _ => 0) 16) = some (16, [2, 4]) ∧
    observeWrites (BtifAvrcpAudioTrackWriteData (fun _ _ _ => 0) 2
        (some { stream := 1, bitsPerSample := 16, channelCount := 2,
                format := AAUDIO_FORMAT_PCM_FLOAT, buffer := fun _ => F32.zero false,
                bufferLength := 4, gain := F32.one })
        (fun _ => 0) 16) = some [(2, true), (4, false)] := by
  decide

/-! ## Gain -/

theorem stdClamp_unit_cases (g : F32) (hg : g.isNaN = false) :
    (F32.lt g kMinTrackGain = true ∧ stdClamp g kMinTrackGain kMaxTrackGain = kMinTrackGain) ∨
    (F32.lt kMaxTrackGain g = true ∧ stdClamp g kMinTrackGain kMaxTrackGain = kMaxTrackGain) ∨
    (F32.le kMinTrackGain g = true ∧ F32.le g kMaxTrackGain = true ∧
      stdClamp g kMinTrackGain kMaxTrackGain = g) := by
  have hmin : kMinTrackGain.isNaN = false := by decide
  have hmax : kMaxTrackGain.isNaN = false := by decide
  by_cases h1 : F32.lt g kMinTrackGain = true
  · left; exact ⟨h1, by simp [stdClamp, h1]⟩
  · by_cases h2 : F32.lt kMaxTrackGain g = true
    · right; left; exact ⟨h2, by simp [stdClamp, h1, h2]⟩
    · right; right
      refine ⟨?_, ?_, by simp [stdClamp, h1, h2]⟩
      · simp only [F32.lt, F32.le, hg, hmin, Bool.not_false, Bool.true_and,
          decide_eq_true_eq] at h1 ⊢
        omega
      · simp only [F32.lt, F32.le, hg, hmax, Bool.not_false, Bool.true_and,
          decide_eq_true_eq] at h2 ⊢
        omega

theorem stdClamp_unit_inRange (g : F32) (hg : g.isNaN = false) :
    F32.le kMinTrackGain (stdClamp g kMinTrackGain kMaxTrackGain) = true ∧
    F32.le (stdClamp g kMinTrackGain kMaxTrackGain) kMaxTrackGain = true := by
  rcases stdClamp_unit_cases g hg with ⟨_, h⟩ | ⟨_, h⟩ | ⟨h1, h2, h⟩
  · rw [h]; exact ⟨by decide, by decide⟩
  · rw [h]; exact ⟨by decide, by decide⟩
  · rw [h]; exact ⟨h1, h2⟩

theorem setGains_inRange (gs : List F32) :
    ∀ (t : BtifAvrcpAudioTrack), gainInRange t = true → (∀ g ∈ gs, F32.isNaN g = false) →
      ∃ t1, setGains (some t) gs = some t1 ∧ gainInRange t1 = true := by
  induction gs with
  | nil => intro t ht _; exact ⟨t, rfl, ht⟩
  | cons g gs ih =>
    intro t _ hall
    have hg : g.isNaN = false := hall g (List.mem_cons_self _ _)
    have hr := stdClamp_unit_inRange g hg
    have hstep : setGains (some t) (g :: gs) =
        setGains (some { t with gain := stdClamp g kMinTrackGain kMaxTrackGain }) gs := rfl
    rw [hstep]
    apply ih
    · simp [gainInRange, hr.1, hr.2]
    · intro g1 hg1; exact hall g1 (List.mem_cons_of_mem _ hg1)

/-- Every track made by `BtifAvrcpAudioTrackCreate` has a float array that fits the address
space. -/
theorem create_bufferLength_allocated (openResult : Int) (stream : Nat)
    (bufferSizeInFrames : Int) (trackFreq bitsPerSample channelCount : Int)
    (t0 : BtifAvrcpAudioTrack)
    (hcreate : BtifAvrcpAudioTrackCreate openResult stream bufferSizeInFrames trackFreq
      bitsPerSample channelCount = some t0) :
    t0.bufferLength * 4 < SIZE_MODULUS ∧ t0.stream = stream ∧
      t0.format = AAUDIO_FORMAT_PCM_FLOAT := by
  unfold BtifAvrcpAudioTrackCreate at hcreate
  split at hcreate
  · exact absurd hcreate (by simp)
  · simp only at hcreate
    split at hcreate
    · exact absurd hcreate (by simp)
    · rename_i h
      have := Option.some.inj hcreate
      rw [← this]
      exact ⟨Nat.lt_of_not_le h, rfl, rfl⟩

/-- Counterexample to C4 as stated.  A track fresh from `BtifAvrcpAudioTrackCreate` is given the
gain NaN: `std::clamp` finds neither `NaN < 0.0` nor `1.0 < NaN`, so NaN is stored, and NaN is
neither `≥ 0.0` nor `≤ 1.0`. -/
theorem setGain_nan_is_stored_out_of_range :
    (BtifAvrcpSetAudioTrackGain (BtifAvrcpAudioTrackCreate 0 1 256 44100 16 2) F32.nan).map
      (fun t => (t.gain, F32.le kMinTrackGain t.gain, F32.le t.gain kMaxTrackGain, gainInRange t))
      = some (F32.nan, false, false, false) := by
  decide

/-- Claim C4, amended.  For every non-null track and every requested gain `g` that is not NaN,
`BtifAvrcpSetAudioTrackGain` stores `clamp (g, 0.0, 1.0)`: `0.0` when `g < 0.0`, `1.0` when
`1.0 < g`, and `g` itself when `0.0 ≤ g ≤ 1.0`; nothing else of the track changes.  Hence,
starting from the track made by `BtifAvrcpAudioTrackCreate` (gain `1.0`), after any sequence of
set-gain calls whose requested values are not NaN the stored gain lies in `[0.0, 1.0]`. -/
theorem setGain_clamps_non_nan (openResult : Int) (stream : Nat) (bufferSizeInFrames : Int)
    (trackFreq bitsPerSample channelCount : Int) (t0 : BtifAvrcpAudioTrack)
    (hcreate : BtifAvrcpAudioTrackCreate openResult stream bufferSizeInFrames trackFreq
      bitsPerSample channelCount = some t0)
    (gs : List F32) (hgs : ∀ g ∈ gs, F32.isNaN g = false) :
    (∀ (t : BtifAvrcpAudioTrack) (g : F32), F32.isNaN g = false →
      ∃ t1, BtifAvrcpSetAudioTrackGain (some t) g = some t1 ∧
        t1 = { t with gain := t1.gain } ∧
        (F32.lt g kMinTrackGain = true → t1.gain = kMinTrackGain) ∧
        (F32.lt kMaxTrackGain g = true → t1.gain = kMaxTrackGain) ∧
        (F32.le kMinTrackGain g = true → F32.le g kMaxTrackGain = true → t1.gain = g) ∧
        F32.le kMinTrackGain t1.gain = true ∧ F32.le t1.gain kMaxTrackGain = true) ∧
    t0.gain = F32.one ∧
    ∃ t1, setGains (some t0) gs = some t1 ∧
      F32.le kMinTrackGain t1.gain = true ∧ F32.le t1.gain kMaxTrackGain = true := by
  have hgain : t0.gain = F32.one := by
    unfold BtifAvrcpAudioTrackCreate at hcreate
    split at hcreate
    · exact absurd hcreate (by simp)
    · simp only at hcreate
      split at hcreate
      · exact absurd hcreate (by simp)
      · have := Option.some.inj hcreate
        rw [← this]; rfl
  refine ⟨?_, hgain, ?_⟩
  · intro t g hg
    refine ⟨{ t with gain := stdClamp g kMinTrackGain kMaxTrackGain }, rfl, rfl, ?_, ?_, ?_,
      (stdClamp_unit_inRange g hg).1, (stdClamp_unit_inRange g hg).2⟩
    · intro h; simp [stdClamp, h]
    · intro h
      have h1 : F32.lt g kMinTrackGain = false := by
        have hmax : kMaxTrackGain.isNaN = false := by decide
        have hmin : kMinTrackGain.isNaN = false := by decide
        simp only [F32.lt, hg, hmax, hmin, Bool.not_false, Bool.true_and,
          decide_eq_true_eq, decide_eq_false_iff_not] at h ⊢
        have : kMinTrackGain.key ≤ kMaxTrackGain.key := by decide
        omega
      simp [stdClamp, h, h1]
    · intro h1 h2
      have hmax : kMaxTrackGain.isNaN = false := by decide
      have hmin : kMinTrackGain.isNaN = false := by decide
      have l1 : F32.lt g kMinTrackGain = false := by
        simp only [F32.lt, F32.le, hg, hmin, Bool.not_false, Bool.true_and,
          decide_eq_true_eq, decide_eq_false_iff_not] at h1 ⊢
        omega
      have l2 : F32.lt kMaxTrackGain g = false := by
        simp only [F32.lt, F32.le, hg, hmax, Bool.not_false, Bool.true_and,
          decide_eq_true_eq, decide_eq_false_iff_not] at h2 ⊢
        omega
      simp [stdClamp, l1, l2]
  · have h0 : gainInRange t0 = true := by
      unfold gainInRange; rw [hgain]; decide
    obtain ⟨t1, h1, h2⟩ := setGains_inRange gs t0 h0 hgs
    refine ⟨t1, h1, ?_⟩
    simpa [gainInRange] using h2

/-- Witness of C4 (amended): after requests of 2.0, -1.0 (both out of range) and 0.5 on a fresh
track the stored gain is 0.5. -/
theorem setGain_clamps_non_nan_witness :
    ∃ t1, setGains (BtifAvrcpAudioTrackCreate 0 1 256 44100 16 2)
        [⟨false, 128, 0⟩, ⟨true, 127, 0⟩, ⟨false, 126, 0⟩] = some t1 ∧
      F32.le kMinTrackGain t1.gain = true ∧ F32.le t1.gain kMaxTrackGain = true :=
  (setGain_clamps_non_nan 0 1 256 44100 16 2
    { stream := 1, bitsPerSample := 16, channelCount := 2, format := AAUDIO_FORMAT_PCM_FLOAT,
      buffer := fun _ => F32.zero false,
      bufferLength := toSizeT (toInt32 (2 * 256)), gain := kMaxTrackGain }
    rfl [⟨false, 128, 0⟩, ⟨true, 127, 0⟩, ⟨false, 126, 0⟩] (by decide)).2.2

/-! ## Binary32 arithmetic on 16-bit samples -/

theorem ilog2Aux_spec : ∀ (fuel n : Nat), n ≤ fuel → n ≠ 0 →
    2 ^ F32.ilog2Aux fuel n ≤ n ∧ n < 2 ^ (F32.ilog2Aux fuel n + 1) := by
  intro fuel
  induction fuel with
  | zero => intro n h0 h1; omega
  | succ fuel ih =>
    intro n hle hne
    unfold F32.ilog2Aux
    by_cases h2 : n < 2
    · rw [if_pos h2]
      have : n = 1 := by omega
      subst this
      decide
    · rw [if_neg h2]
      obtain ⟨hlo, hhi⟩ := ih (n / 2) (by omega) (by omega)
      rw [pow_succ] at hhi ⊢
      rw [pow_succ]
      constructor <;> omega

theorem ilog2_spec (n : Nat) (hn : n ≠ 0) :
    2 ^ F32.ilog2 n ≤ n ∧ n < 2 ^ (F32.ilog2 n + 1) :=
  ilog2Aux_spec n n (Nat.le_refl _) hn

theorem ilog2_eq (n j : Nat) (hlo : 2 ^ j ≤ n) (hhi : n < 2 ^ (j + 1)) : F32.ilog2 n = j := by
  have hn : n ≠ 0 := by
    have : 0 < 2 ^ j := Nat.pow_pos (by decide)
    omega
  obtain ⟨h1, h2⟩ := ilog2_spec n hn
  have e1 := Nat.log_eq_of_pow_le_of_lt_pow h1 h2
  have e2 := Nat.log_eq_of_pow_le_of_lt_pow hlo hhi
  omega

theorem roundShift_exact (n s : Nat) : F32.roundShift (n * 2 ^ s) s = n := by
  have hpos : 0 < 2 ^ s := Nat.pow_pos (by decide)
  have hq : n * 2 ^ s / 2 ^ s = n := Nat.mul_div_cancel _ hpos
  have hr : n * 2 ^ s % 2 ^ s = 0 := Nat.mul_mod_left _ _
  have hh : 0 < 2 ^ (s - 1) := Nat.pow_pos (by decide)
  unfold F32.roundShift
  simp only [hq, hr]
  rw [if_neg]
  omega

/-- Fields of a packed normal number. -/
theorem pack_normal (sign : Bool) (qe : Int) (n : Nat) (hlo : 8388608 ≤ n) (hhi : n < 16777216)
    (hq0 : -149 ≤ qe) (hq1 : qe ≤ 104) :
    (F32.pack sign qe n).sign = sign ∧ (F32.pack sign qe n).significand = n ∧
    (F32.pack sign qe n).exponent = qe ∧ (F32.pack sign qe n).isNaN = false ∧
    (F32.pack sign qe n).isInf = false := by
  have hpacked : ((qe + 149) * 8388608 + (n : Int)).toNat < 255 * 8388608 := by omega
  have hexp : ((qe + 149) * 8388608 + (n : Int)).toNat / 8388608 = (qe + 150).toNat := by omega
  have hman : ((qe + 149) * 8388608 + (n : Int)).toNat % 8388608 = n - 8388608 := by omega
  have hfields : F32.pack sign qe n =
      ⟨sign, Fin.ofNat (qe + 150).toNat, Fin.ofNat (n - 8388608)⟩ := by
    unfold F32.pack
    simp only [if_neg (Nat.not_le.mpr hpacked), hexp, hman]
  have hev : (Fin.ofNat (qe + 150).toNat : Fin 256).val = (qe + 150).toNat := by
    show (qe + 150).toNat % 256 = _
    omega
  have hmv : (Fin.ofNat (n - 8388608) : Fin 8388608).val = n - 8388608 := by
    show (n - 8388608) % 8388608 = _
    omega
  rw [hfields]
  refine ⟨rfl, ?_, ?_, ?_, ?_⟩
  · simp only [F32.significand, hev, hmv]
    rw [if_neg (by omega)]
    omega
  · simp only [F32.exponent, hev]
    rw [if_neg (by omega)]
    omega
  · simp only [F32.isNaN, hev, hmv]
    have : ((qe + 150).toNat == 255) = false := by
      rw [beq_eq_false_iff_ne]; omega
    simp [this]
  · simp only [F32.isInf, hev, hmv]
    have : ((qe + 150).toNat == 255) = false := by
      rw [beq_eq_false_iff_ne]; omega
    simp [this]

/-- An integer of magnitude below `2^24` converts exactly, to a normal number. -/
theorem ofInt_small_fields (v : Int) (hv : v ≠ 0) (hmag : v.natAbs < 16777216) :
    ∃ (n : Nat) (qe : Int), F32.ofInt v = F32.pack (decide (v < 0)) qe n ∧
      8388608 ≤ n ∧ n < 16777216 ∧ -23 ≤ qe ∧ qe ≤ 0 ∧
      (n : ℚ) * (2 : ℚ) ^ qe = (v.natAbs : ℚ) := by
  have hM : v.natAbs ≠ 0 := by omega
  obtain ⟨hlo, hhi⟩ := ilog2_spec v.natAbs hM
  have hj : F32.ilog2 v.natAbs < 24 := by
    have h : 2 ^ F32.ilog2 v.natAbs < 2 ^ 24 := lt_of_le_of_lt hlo (by norm_num; exact hmag)
    exact (Nat.pow_lt_pow_iff_right (by decide)).mp h
  refine ⟨v.natAbs * 2 ^ (23 - F32.ilog2 v.natAbs), (F32.ilog2 v.natAbs : Int) - 23,
    ?_, ?_, ?_, by omega, by omega, ?_⟩
  · have hqe : max (((F32.ilog2 v.natAbs : Nat) : Int) + 0 - 23) (-149)
        = (F32.ilog2 v.natAbs : Int) - 23 := by omega
    have hsh : ((0 : Int) - ((F32.ilog2 v.natAbs : Int) - 23)).toNat
        = 23 - F32.ilog2 v.natAbs := by omega
    have hle : ((F32.ilog2 v.natAbs : Int) - 23) ≤ 0 := by omega
    unfold F32.ofInt F32.roundPack
    simp only [if_neg hM, hqe, if_pos hle, hsh]
  · have h : 2 ^ F32.ilog2 v.natAbs * 2 ^ (23 - F32.ilog2 v.natAbs) = 2 ^ 23 := by
      rw [← pow_add]; congr 1; omega
    have := Nat.mul_le_mul_right (2 ^ (23 - F32.ilog2 v.natAbs)) hlo
    rw [h] at this
    norm_num at this
    exact this
  · have h : 2 ^ (F32.ilog2 v.natAbs + 1) * 2 ^ (23 - F32.ilog2 v.natAbs) = 2 ^ 24 := by
      rw [← pow_add]; congr 1; omega
    have hp : 0 < 2 ^ (23 - F32.ilog2 v.natAbs) := Nat.pow_pos (by decide)
    have := Nat.mul_lt_mul_of_pos_right hhi hp
    rw [h] at this
    norm_num at this
    exact this
  · push_cast
    rw [mul_assoc, ← zpow_natCast, ← zpow_add₀ (by norm_num : (2 : ℚ) ≠ 0)]
    have : ((23 - F32.ilog2 v.natAbs : Nat) : Int) + ((F32.ilog2 v.natAbs : Int) - 23) = 0 := by
      omega
    rw [this, zpow_zero, mul_one]

/-- Multiplying a normal number of exponent `qe ∈ [-23, 0]` by `2^-15` only lowers the exponent. -/
theorem mul_scaleQ15_exact (sign : Bool) (qe : Int) (n : Nat) (hlo : 8388608 ≤ n)
    (hhi : n < 16777216) (hq0 : -23 ≤ qe) (hq1 : qe ≤ 0) :
    F32.mul (F32.pack sign qe n) ⟨false, 112, 0⟩ = F32.pack sign (qe - 15) n := by
  obtain ⟨hs, hsig, hexp, hnan, hinf⟩ :=
    pack_normal sign qe n hlo hhi (by omega) (by omega)
  have hsc1 : F32.isNaN ⟨false, 112, 0⟩ = false := by decide
  have hsc2 : F32.isInf ⟨false, 112, 0⟩ = false := by decide
  have hsc3 : F32.significand ⟨false, 112, 0⟩ = 8388608 := by decide
  have hsc4 : F32.exponent ⟨false, 112, 0⟩ = -38 := by decide
  have hm : n * 8388608 ≠ 0 := by omega
  have hlog : F32.ilog2 (n * 8388608) = 46 :=
    ilog2_eq _ 46 (by norm_num; omega) (by norm_num; omega)
  have hqe : max (((46 : Nat) : Int) + (qe + -38) - 23) (-149) = qe - 15 := by omega
  have hnle : ¬ (qe - 15 ≤ qe + -38) := by omega
  have hsh : (qe - 15 - (qe + -38)).toNat = 23 := by omega
  have hrs : F32.roundShift (n * 8388608) 23 = n := by
    have := roundShift_exact n 23
    norm_num at this
    exact this
  unfold F32.mul
  simp only [hnan, hinf, hsc1, hsc2, hs, hsig, hexp, hsc3, hsc4, Bool.or_self,
    Bool.false_eq_true, if_false, Bool.xor_false]
  unfold F32.roundPack
  simp only [if_neg hm, hlog, hqe, if_neg hnle, hsh, hrs]

theorem mul_one_scaleQ15 : F32.mul F32.one kScaleQ15ToFloat = ⟨false, 112, 0⟩ := by decide

/-- With gain `1.0` a 16-bit sample `v` is stored as the finite float of value `v / 32768`. -/
theorem q15_unit_gain_exact (v : Int) (hlo : -32768 ≤ v) (hhi : v ≤ 32767) :
    (F32.mul (F32.ofInt v) (F32.mul F32.one kScaleQ15ToFloat)).isNaN = false ∧
    (F32.mul (F32.ofInt v) (F32.mul F32.one kScaleQ15ToFloat)).isInf = false ∧
    (F32.mul (F32.ofInt v) (F32.mul F32.one kScaleQ15ToFloat)).toRat = (v : ℚ) / 32768 := by
  rw [mul_one_scaleQ15]
  by_cases hv : v = 0
  · subst hv
    have h : F32.mul (F32.ofInt 0) ⟨false, 112, 0⟩ = F32.zero false := by decide
    rw [h]
    refine ⟨by decide, by decide, ?_⟩
    simp [F32.toRat, F32.zero, F32.significand]
  · obtain ⟨n, qe, hof, hn0, hn1, hq0, hq1, hval⟩ := ofInt_small_fields v hv (by omega)
    rw [hof, mul_scaleQ15_exact _ qe n hn0 hn1 hq0 hq1]
    obtain ⟨hs, hsig, hexp, hnan, hinf⟩ :=
      pack_normal (decide (v < 0)) (qe - 15) n hn0 hn1 (by omega) (by omega)
    refine ⟨hnan, hinf, ?_⟩
    unfold F32.toRat
    rw [hs, hsig, hexp]
    have hsplit : (2 : ℚ) ^ (qe - 15) = (2 : ℚ) ^ qe * (2 : ℚ) ^ (-15 : Int) := by
      rw [← zpow_add₀ (by norm_num : (2 : ℚ) ≠ 0)]; congr 1
    have h15 : (2 : ℚ) ^ (-15 : Int) = 1 / 32768 := by norm_num [zpow_neg]
    rw [hsplit, mul_assoc, ← mul_assoc (n : ℚ), hval, h15]
    by_cases hneg : v < 0
    · have hz : (v.natAbs : Int) = -v := by omega
      have habs2 : (v.natAbs : ℚ) = -(v : ℚ) := by
        rw [← Int.cast_natCast, hz, Int.cast_neg]
      simp only [hneg, decide_True, if_true]
      rw [habs2]; ring
    · have hz : (v.natAbs : Int) = v := by omega
      have habs2 : (v.natAbs : ℚ) = (v : ℚ) := by
        rw [← Int.cast_natCast, hz]
      simp only [hneg, decide_False, Bool.false_eq_true, if_false]
      rw [habs2]; ring

theorem loadInt16_range (mem : Mem) (a : Int) :
    -32768 ≤ loadInt16 mem a ∧ loadInt16 mem a ≤ 32767 := by
  unfold loadInt16 loadByte
  simp only
  split <;> omega

/-- Claim C6.  On a 16-bit track, for every sample index `i` below
`sampleCount = min (bufferLength, length / sampleSize)`, `transcodeQ15ToFloat` stores at float
index `i` the product (in `float` arithmetic, `scaledGain = gain * (1/32768)` being formed first
as in the source) of `v_i` and `gain * (1/32768)`, where `v_i` is the signed 16-bit integer whose
low byte is input byte `2i` and whose high byte is input byte `2i+1`.  With gain `1.0` the stored
float is finite and its value is exactly `v_i / 32768`: `-32768` gives `-1.0`, `32767` gives
`32767/32768`, `16384` gives `0.5` and `-16384` gives `-0.5`. -/
theorem transcodeQ15ToFloat_stores_scaled_samples (mem : Mem) (p : Int) (length : Nat)
    (t : BtifAvrcpAudioTrack) (i : Nat) (hbits : t.bitsPerSample = 16)
    (hi : i < min t.bufferLength (length / sampleSizeFor t)) :
    sampleSizeFor t = 2 ∧
    loadInt16 mem (p + 2 * (i : Int)) =
      (if loadByte mem (p + 2 * (i : Int)) + 256 * loadByte mem (p + 2 * (i : Int) + 1) < 32768
       then ((loadByte mem (p + 2 * (i : Int))
              + 256 * loadByte mem (p + 2 * (i : Int) + 1) : Nat) : Int)
       else ((loadByte mem (p + 2 * (i : Int))
              + 256 * loadByte mem (p + 2 * (i : Int) + 1) : Nat) : Int) - 65536) ∧
    (transcodeQ15ToFloat mem p length t).2.buffer i =
      F32.mul (F32.ofInt (loadInt16 mem (p + 2 * (i : Int)))) (F32.mul t.gain kScaleQ15ToFloat) ∧
    (t.gain = F32.one →
      ((transcodeQ15ToFloat mem p length t).2.buffer i).isNaN = false ∧
      ((transcodeQ15ToFloat mem p length t).2.buffer i).isInf = false ∧
      ((transcodeQ15ToFloat mem p length t).2.buffer i).toRat =
        (loadInt16 mem (p + 2 * (i : Int)) : ℚ) / 32768 ∧
      (loadInt16 mem (p + 2 * (i : Int)) = -32768 →
        (transcodeQ15ToFloat mem p length t).2.buffer i = ⟨true, 127, 0⟩ ∧
        ((transcodeQ15ToFloat mem p length t).2.buffer i).toRat = -1) ∧
      (loadInt16 mem (p + 2 * (i : Int)) = 32767 →
        ((transcodeQ15ToFloat mem p length t).2.buffer i).toRat = 32767 / 32768) ∧
      (loadInt16 mem (p + 2 * (i : Int)) = 16384 →
        (transcodeQ15ToFloat mem p length t).2.buffer i = ⟨false, 126, 0⟩ ∧
        ((transcodeQ15ToFloat mem p length t).2.buffer i).toRat = 1 / 2) ∧
      (loadInt16 mem (p + 2 * (i : Int)) = -16384 →
        (transcodeQ15ToFloat mem p length t).2.buffer i = ⟨true, 126, 0⟩ ∧
        ((transcodeQ15ToFloat mem p length t).2.buffer i).toRat = -(1 / 2))) := by
  have hstore : (transcodeQ15ToFloat mem p length t).2.buffer i =
      F32.mul (F32.ofInt (loadInt16 mem (p + 2 * (i : Int))))
        (F32.mul t.gain kScaleQ15ToFloat) := by
    show storeSamples _ _ _ i = _
    rw [storeSamples_lt _ _ _ _ hi]
    rfl
  refine ⟨sampleSizeFor_16 t hbits, rfl, hstore, ?_⟩
  intro hgain
  rw [hstore, hgain]
  obtain ⟨hr0, hr1⟩ := loadInt16_range mem (p + 2 * (i : Int))
  obtain ⟨hnan, hinf, hval⟩ := q15_unit_gain_exact _ hr0 hr1
  refine ⟨hnan, hinf, hval, ?_, ?_, ?_, ?_⟩
  · intro hv
    rw [hval]; rw [hv]
    exact ⟨by decide, by norm_num⟩
  · intro hv
    rw [hval, hv]; norm_num
  · intro hv
    rw [hval]; rw [hv]
    exact ⟨by decide, by norm_num⟩
  · intro hv
    rw [hval]; rw [hv]
    exact ⟨by decide, by norm_num⟩

/-- Witness of C6: the spec's end-to-end example, the 8 bytes of the samples
`+16384, -16384, +16384, -16384` on a 16-bit stereo track with gain `1.0`; float 1 is `-0.5`. -/
theorem transcodeQ15ToFloat_stores_scaled_samples_witness :
    (transcodeQ15ToFloat (fun a => [0, 64, 0, 192, 0, 64, 0, 192].getD a.toNat 0) 0 8
        { stream := 1, bitsPerSample := 16, channelCount := 2, format := 2,
          buffer := fun _ => F32.zero false, bufferLength := 4, gain := F32.one }).2.buffer 1
      = ⟨true, 126, 0⟩ :=
  ((transcodeQ15ToFloat_stores_scaled_samples
      (fun a => [0, 64, 0, 192, 0, 64, 0, 192].getD a.toNat 0) 0 8
      { stream := 1, bitsPerSample := 16, channelCount := 2, format := 2,
        buffer := fun _ => F32.zero false, bufferLength := 4, gain := F32.one }
      1 rfl (by decide)).2.2.2 rfl).2.2.2.2.2.2 (by decide) |>.1

end AvrcpAudioTrack
